import Mathlib

/-
Verification of the threaded-comment model of the blog CMS frontend.

The definitions below are shallow embeddings of the comment presenter code:
  - CommentNode / findCommentById / getTotalCommentCount come from
    frontend/components/article/CommentList.tsx,
  - canReply / canEdit / handleLike / handleEdit / handleDelete and the
    CommentItem action menu come from CommentItem.tsx,
  - handleSubmit comes from CommentForm.tsx,
  - the moderation action menu comes from the comments management page,
  - buildCommentTree is modelled from the specification (the Django backend
    that nests the flat comment rows is not part of the frontend sources).
JavaScript strings are embedded as lists of characters, JavaScript numbers
used as like counters as integers, and each asynchronous store round-trip
as an explicit success/failure outcome passed to the handler.
-/

namespace BlogComments

/-- JavaScript strings, embedded as lists of characters. -/
abbrev JStr := List Char

/-- Embedding of the JavaScript String.prototype.trim call: drop whitespace
from both ends. -/
def jsTrim (s : JStr) : JStr :=
  ((s.dropWhile Char.isWhitespace).reverse.dropWhile Char.isWhitespace).reverse

/-- The four account roles of the frontend User type. -/
inductive Role where
  | admin
  | editor
  | author
  | reader
deriving DecidableEq

/-- The fields of the frontend User type that the comment presenter reads. -/
structure User where
  id : Nat
  role : Role
deriving DecidableEq

/-- A nested comment as delivered by the comment store: its id, its derived
depth (0 for a root), and its already-nested list of replies.  Fields of the
frontend Comment type not read by the tree-traversal code are omitted. -/
inductive CommentNode where
  | mk (id : Nat) (depth : Nat) (replies : List CommentNode)

/-- The id field of a nested comment. -/
def CommentNode.id : CommentNode → Nat
  | .mk i _ _ => i

/-- The depth field of a nested comment. -/
def CommentNode.depth : CommentNode → Nat
  | .mk _ d _ => d

/-- The replies field of a nested comment. -/
def CommentNode.replies : CommentNode → List CommentNode
  | .mk _ _ rs => rs

/-- Embedding of CommentList.findCommentById: walk the roots in order, check
the root itself, then search its replies recursively, then the remaining
roots; return the first comment whose id matches, or null. -/
def findCommentById : List CommentNode → Nat → Option CommentNode
  | [], _ => none
  | CommentNode.mk i d rs :: rest, target =>
    if i = target then some (CommentNode.mk i d rs)
    else
      match findCommentById rs target with
      | some found => some found
      | none => findCommentById rest target

/-- Embedding of CommentList.getTotalCommentCount: reduce over the list,
adding for each comment 1 plus the recursive count of its replies (the
source's reduce with a running total computes exactly this sum). -/
def getTotalCommentCount : List CommentNode → Nat
  | [] => 0
  | CommentNode.mk _ _ rs :: rest =>
    1 + getTotalCommentCount rs + getTotalCommentCount rest

/-- A JavaScript value supplied where a Comment array is expected: either an
actual array of comments, or any non-array value (the case both traversal
functions guard with Array.isArray). -/
inductive CommentsValue where
  | arr (cs : List CommentNode)
  | nonArray

/-- Embedding of findCommentById at its public interface, including the
leading Array.isArray guard that returns null for non-array input. -/
def findCommentByIdV : CommentsValue → Nat → Option CommentNode
  | .nonArray, _ => none
  | .arr cs, target => findCommentById cs target

/-- Embedding of getTotalCommentCount at its public interface, including the
leading Array.isArray guard that returns 0 for non-array input. -/
def getTotalCommentCountV : CommentsValue → Nat
  | .nonArray => 0
  | .arr cs => getTotalCommentCount cs

/-- Specification-side predicate: some comment with the given id occurs
anywhere in the forest (at a root or nested below one). -/
def containsId : List CommentNode → Nat → Bool
  | [], _ => false
  | CommentNode.mk i _ rs :: rest, target =>
    (i = target) || containsId rs target || containsId rest target

theorem findCommentById_id_eq (l : List CommentNode) (target : Nat) :
    ∀ c, findCommentById l target = some c → c.id = target := by
  match l with
  | [] => intro c h; simp [findCommentById] at h
  | CommentNode.mk i d rs :: rest =>
    intro c h
    by_cases hi : i = target
    · simp [findCommentById, hi] at h
      rw [← h]
      rfl
    · simp [findCommentById, hi] at h
      rcases h' : findCommentById rs target with _ | found
      · rw [h'] at h
        exact findCommentById_id_eq rest target c h
      · rw [h'] at h
        cases h
        exact findCommentById_id_eq rs target c h'

theorem findCommentById_isSome_eq (l : List CommentNode) (target : Nat) :
    (findCommentById l target).isSome = containsId l target := by
  match l with
  | [] => simp [findCommentById, containsId]
  | CommentNode.mk i d rs :: rest =>
    have h1 := findCommentById_isSome_eq rs target
    have h2 := findCommentById_isSome_eq rest target
    by_cases hi : i = target
    · simp [findCommentById, containsId, hi]
    · rcases h' : findCommentById rs target with _ | found
      · have hc1 : containsId rs target = false := by rw [← h1, h']; rfl
        simp [findCommentById, containsId, hi, h', hc1, h2]
      · have hc1 : containsId rs target = true := by rw [← h1, h']; rfl
        simp [findCommentById, containsId, hi, h', hc1]

/-- C9: for every comment forest and every id, findCommentById returns a
comment whose id equals the searched id whenever such a comment occurs
anywhere in the forest, and returns null when no comment in the forest has
that id. -/
theorem findCommentById_spec (l : List CommentNode) (target : Nat) :
    (∀ c, findCommentById l target = some c → c.id = target) ∧
    (containsId l target = true →
      ∃ c, findCommentById l target = some c ∧ c.id = target) ∧
    (containsId l target = false → findCommentById l target = none) := by
  refine ⟨findCommentById_id_eq l target, ?_, ?_⟩
  · intro h
    have hs : (findCommentById l target).isSome = true := by
      rw [findCommentById_isSome_eq]; exact h
    rcases Option.isSome_iff_exists.mp hs with ⟨c, hc⟩
    exact ⟨c, hc, findCommentById_id_eq l target c hc⟩
  · intro h
    have hs : (findCommentById l target).isSome = false := by
      rw [findCommentById_isSome_eq]; exact h
    exact Option.not_isSome_iff_eq_none.mp (by simp [hs])

/-- C9 witness: on a concrete two-root forest, id 3 occurs (nested) and is
found with the right id, while id 9 does not occur and the search returns
null. -/
theorem findCommentById_spec_witness :
    containsId [CommentNode.mk 1 0 [CommentNode.mk 3 1 []], CommentNode.mk 2 0 []] 3 = true ∧
    (∃ c, findCommentById [CommentNode.mk 1 0 [CommentNode.mk 3 1 []], CommentNode.mk 2 0 []] 3 =
        some c ∧ c.id = 3) ∧
    (containsId [CommentNode.mk 1 0 [CommentNode.mk 3 1 []], CommentNode.mk 2 0 []] 9 = false ∧
      findCommentById [CommentNode.mk 1 0 [CommentNode.mk 3 1 []], CommentNode.mk 2 0 []] 9 = none) :=
  ⟨by simp [containsId],
   (findCommentById_spec [CommentNode.mk 1 0 [CommentNode.mk 3 1 []], CommentNode.mk 2 0 []] 3).2.1
     (by simp [containsId]),
   by simp [containsId],
   (findCommentById_spec [CommentNode.mk 1 0 [CommentNode.mk 3 1 []], CommentNode.mk 2 0 []] 9).2.2
     (by simp [containsId])⟩

/-- C10: at the public interface, a non-array value in place of the comment
list makes findCommentById return null and getTotalCommentCount return 0;
both functions are total. -/
theorem nonArrayGuard_spec :
    (∀ target, findCommentByIdV CommentsValue.nonArray target = none) ∧
    getTotalCommentCountV CommentsValue.nonArray = 0 :=
  ⟨fun _ => rfl, rfl⟩

/-- A flat comment row as listed by the comment store before nesting: its id,
its optional parent id, and its server-derived depth. -/
structure FlatComment where
  id : Nat
  parent : Option Nat
  depth : Nat
deriving DecidableEq

/-- Modelled from the spec: the comments of the flat list whose parent id is
the given id, in the list's original relative order (the grouping step of the
tree builder; the Django backend that performs it is not under the frontend
sources). -/
def childrenOf (cs : List FlatComment) (pid : Nat) : List FlatComment :=
  cs.filter (fun c => c.parent = some pid)

/-- Modelled from the spec: whether some comment of the flat list carries the
given id (used to decide whether a parent reference resolves within the
set). -/
def idPresent (cs : List FlatComment) (i : Nat) : Bool :=
  cs.any (fun c => c.id = i)

/-- Modelled from the spec: a comment becomes a root when it has no parent or
its parent is not in the set (e.g. filtered out as spam). -/
def isRoot (cs : List FlatComment) (c : FlatComment) : Bool :=
  match c.parent with
  | none => true
  | some p => !idPresent cs p

/-- Largest depth value occurring in the flat list (0 for the empty list);
used only to bound the recursion of the materialized tree builder. -/
def maxDepthOf (cs : List FlatComment) : Nat :=
  cs.foldr (fun c m => Nat.max c.depth m) 0

/-- Modelled from the spec: materialize the node of one comment, recursively
nesting the comments whose parent id is its id.  The fuel argument only
bounds the recursion; with the depth invariant of the data model it is never
exhausted. -/
def buildNode (cs : List FlatComment) : Nat → FlatComment → CommentNode
  | 0, c => CommentNode.mk c.id c.depth []
  | fuel + 1, c =>
    CommentNode.mk c.id c.depth ((childrenOf cs c.id).map (buildNode cs fuel))

/-- Modelled from the spec: the comment tree builder — group the flat list by
parent id, preserving order, producing the finite materialized forest whose
roots are the comments with no parent in the set (the Django backend that
performs this nesting is not under the frontend sources). -/
def buildCommentTree (cs : List FlatComment) : List CommentNode :=
  (cs.filter (fun c => isRoot cs c)).map (buildNode cs (maxDepthOf cs + 1))

/-- The rendering states of the reply control of one comment. -/
inductive ReplyControl where
  | absent
  | disabled
  | enabled
deriving DecidableEq

/-- Embedding of CommentItem.canReply: a reply is offered below the
configured maximum depth. -/
def canReply (c : CommentNode) (maxDepth : Nat) : Bool :=
  c.depth < maxDepth

/-- Embedding of the reply button of CommentItem: rendered only when
canReply holds, and then disabled exactly when no user is authenticated. -/
def replyButton (user : Option User) (c : CommentNode) (maxDepth : Nat) :
    ReplyControl :=
  if canReply c maxDepth then
    if user.isSome then ReplyControl.enabled else ReplyControl.disabled
  else ReplyControl.absent

/-- The concrete four-comment chain of the specification scenario, with the
depths the data-model invariant derives. -/
def chainExample : List FlatComment :=
  [⟨1, none, 0⟩, ⟨2, some 1, 1⟩, ⟨3, some 2, 2⟩, ⟨4, some 3, 3⟩]

/-- C2: with the configured maximum depth 3, the reply control is absent or
disabled whenever the comment's depth is at least 3 and enabled for an
authenticated viewer whenever the depth is below 3; in the chain 1-2-3-4 the
tree is the single nested path and comment 4, at depth 3, never gets an
enabled reply control. -/
theorem replyDepthGate_spec :
    (∀ (u : Option User) (c : CommentNode), 3 ≤ c.depth →
      replyButton u c 3 = ReplyControl.absent ∨
      replyButton u c 3 = ReplyControl.disabled) ∧
    (∀ (u : User) (c : CommentNode), c.depth < 3 →
      replyButton (some u) c 3 = ReplyControl.enabled) ∧
    (buildCommentTree chainExample =
      [CommentNode.mk 1 0 [CommentNode.mk 2 1 [CommentNode.mk 3 2
        [CommentNode.mk 4 3 []]]]] ∧
     (CommentNode.mk 4 3 []).depth = 3 ∧
     ∀ u : Option User,
       replyButton u (CommentNode.mk 4 3 []) 3 ≠ ReplyControl.enabled) := by
  refine ⟨?_, ?_, rfl, rfl, ?_⟩
  · intro u c h
    left
    simp [replyButton, canReply, Nat.not_lt.mpr h]
  · intro u c h
    simp [replyButton, canReply, h]
  · intro u
    simp [replyButton, canReply, CommentNode.depth]

/-- C2 witness: a depth-5 comment gets an absent or disabled control, and a
depth-1 comment viewed by an authenticated reader gets an enabled one. -/
theorem replyDepthGate_spec_witness :
    (3 ≤ (CommentNode.mk 7 5 []).depth ∧
      (replyButton none (CommentNode.mk 7 5 []) 3 = ReplyControl.absent ∨
       replyButton none (CommentNode.mk 7 5 []) 3 = ReplyControl.disabled)) ∧
    ((CommentNode.mk 9 1 []).depth < 3 ∧
      replyButton (some ⟨11, Role.reader⟩) (CommentNode.mk 9 1 []) 3 =
        ReplyControl.enabled) :=
  ⟨⟨by decide, replyDepthGate_spec.1 none (CommentNode.mk 7 5 []) (by decide)⟩,
   ⟨by decide,
    replyDepthGate_spec.2.1 ⟨11, Role.reader⟩ (CommentNode.mk 9 1 []) (by decide)⟩⟩

/-- Embedding of CommentItem.canEdit: truthy exactly when a user is signed in
and is the comment's author or holds the admin or editor role. -/
def canEdit (user : Option User) (authorId : Nat) : Bool :=
  match user with
  | none => false
  | some u => (u.id = authorId) || (u.role = Role.admin) || (u.role = Role.editor)

/-- The entries of the per-comment action menu of CommentItem. -/
inductive ItemAction where
  | edit
  | delete
  | report
deriving DecidableEq

/-- Embedding of the CommentItem action menu: rendered only for a signed-in
user; the edit and the delete entries appear when canEdit is truthy, the
report entry when the viewer is not the author. -/
def commentMenu (user : Option User) (authorId : Nat) : List ItemAction :=
  match user with
  | none => []
  | some u =>
    (if canEdit (some u) authorId then [ItemAction.edit] else []) ++
    (if canEdit (some u) authorId then [ItemAction.delete] else []) ++
    (if u.id ≠ authorId then [ItemAction.report] else [])

/-- C6: the edit and the delete controls are offered exactly when the viewer
is the comment's author or holds the admin or editor elevated role, and the
canEdit permission itself holds exactly under that condition; any other
authenticated viewer sees neither control. -/
theorem editDeleteGate_spec :
    ∀ (user : Option User) (authorId : Nat),
      (ItemAction.edit ∈ commentMenu user authorId ↔
        ∃ u, user = some u ∧
          (u.id = authorId ∨ u.role = Role.admin ∨ u.role = Role.editor)) ∧
      (ItemAction.delete ∈ commentMenu user authorId ↔
        ∃ u, user = some u ∧
          (u.id = authorId ∨ u.role = Role.admin ∨ u.role = Role.editor)) ∧
      (canEdit user authorId = true ↔
        ∃ u, user = some u ∧
          (u.id = authorId ∨ u.role = Role.admin ∨ u.role = Role.editor)) := by
  intro user authorId
  cases user with
  | none => simp [commentMenu, canEdit]
  | some u =>
    by_cases hc : u.id = authorId ∨ u.role = Role.admin ∨ u.role = Role.editor
    · have hb : canEdit (some u) authorId = true := by
        rcases hc with h | h | h <;> simp [canEdit, h]
      simp [commentMenu, hb, hc]
    · have hb : canEdit (some u) authorId = false := by
        push_neg at hc
        simp [canEdit, hc.1, hc.2.1, hc.2.2]
      simp [commentMenu, hb, hc]

/-- Outcome of one asynchronous round-trip to the comment store: the awaited
call either resolves or throws. -/
inductive StoreResult where
  | success
  | failure
deriving DecidableEq

/-- The inline error messages the comment presenter can set, as abstract
tokens. -/
inductive ErrMsg where
  | likeFailed
  | updateFailed
  | deleteFailed
  | contentRequired
  | loginRequired
  | submitFailed
deriving DecidableEq

/-- The local React state of one CommentItem that the mutation handlers
read and write. -/
structure ItemState where
  isLiked : Bool
  likeCount : Int
  isEditing : Bool
  editContent : JStr
  loading : Bool
  errorMsg : Option ErrMsg
deriving DecidableEq

/-- Observable effects of one CommentItem handler run: whether a store
request was issued, and whether a parent callback fired that makes
CommentList re-fetch the article's comment list (onUpdate and onDelete are
wired to CommentList.mutate). -/
structure ItemEffects where
  storeCalled : Bool
  refetchTriggered : Bool
deriving DecidableEq

/-- Embedding of CommentItem.handleLike: early return when no user is signed
in; otherwise call unlikeComment when the comment is locally liked, else
likeComment; on success flip the liked flag and adjust the local counter by
one; on failure set the inline error; the finally clause clears the busy
flag.  No parent callback fires, so the comment list is not re-fetched. -/
def handleLike (user : Option User) (st : ItemState) (store : StoreResult) :
    ItemState × ItemEffects :=
  match user with
  | none => (st, ⟨false, false⟩)
  | some _ =>
    match store with
    | .success =>
      if st.isLiked then
        ({ st with isLiked := false, likeCount := st.likeCount - 1,
                   loading := false }, ⟨true, false⟩)
      else
        ({ st with isLiked := true, likeCount := st.likeCount + 1,
                   loading := false }, ⟨true, false⟩)
    | .failure =>
      ({ st with errorMsg := some ErrMsg.likeFailed, loading := false },
       ⟨true, false⟩)

/-- Embedding of CommentItem.handleEdit: early return when the edit box is
blank; otherwise call updateComment; on success leave edit mode, clear the
inline error, and fire onUpdate (wired to CommentList.mutate, a full
re-fetch); on failure set the inline error; the finally clause clears the
busy flag. -/
def handleEdit (st : ItemState) (store : StoreResult) :
    ItemState × ItemEffects :=
  if (jsTrim st.editContent).isEmpty then (st, ⟨false, false⟩)
  else
    match store with
    | .success =>
      ({ st with isEditing := false, errorMsg := none, loading := false },
       ⟨true, true⟩)
    | .failure =>
      ({ st with errorMsg := some ErrMsg.updateFailed, loading := false },
       ⟨true, false⟩)

/-- Embedding of CommentItem.handleDelete: early return when the viewer
declines the confirmation dialog; otherwise call deleteComment; on success
fire onDelete (wired to CommentList.mutate, a full re-fetch); on failure set
the inline error; the finally clause clears the busy flag. -/
def handleDelete (confirmed : Bool) (st : ItemState) (store : StoreResult) :
    ItemState × ItemEffects :=
  if !confirmed then (st, ⟨false, false⟩)
  else
    match store with
    | .success => ({ st with loading := false }, ⟨true, true⟩)
    | .failure =>
      ({ st with errorMsg := some ErrMsg.deleteFailed, loading := false },
       ⟨true, false⟩)

/-- The local React state of the CommentForm that handleSubmit reads and
writes. -/
structure FormState where
  content : JStr
  loading : Bool
  errorMsg : Option ErrMsg
deriving DecidableEq

/-- The request body handleSubmit sends to createComment. -/
structure CommentRequest where
  article : Nat
  content : JStr
  parent : Option Nat
deriving DecidableEq

/-- Observable effects of one handleSubmit run: the request issued to the
store, if any, and whether onSuccess fired (wired to
CommentList.handleCommentSuccess, which re-fetches the comment list). -/
structure FormEffects where
  request : Option CommentRequest
  onSuccessFired : Bool
deriving DecidableEq

/-- Embedding of CommentForm.handleSubmit: reject blank content, then a
missing user, each with an inline message and no request; otherwise send the
trimmed content with the article id, spreading the parent id only when it is
truthy; on success clear the box and fire onSuccess; on failure set the
inline error; the finally clause clears the busy flag. -/
def handleSubmit (user : Option User) (articleId : Nat) (parentId : Option Nat)
    (st : FormState) (store : StoreResult) : FormState × FormEffects :=
  if (jsTrim st.content).isEmpty then
    ({ st with errorMsg := some ErrMsg.contentRequired }, ⟨none, false⟩)
  else
    match user with
    | none => ({ st with errorMsg := some ErrMsg.loginRequired }, ⟨none, false⟩)
    | some _ =>
      let payload : CommentRequest :=
        ⟨articleId, jsTrim st.content,
         if parentId.getD 0 = 0 then none else parentId⟩
      match store with
      | .success =>
        (⟨[], false, none⟩, ⟨some payload, true⟩)
      | .failure =>
        ({ st with errorMsg := some ErrMsg.submitFailed, loading := false },
         ⟨some payload, false⟩)

/-- Embedding of the comment text field's onChange under its maxLength
attribute of 1000: the stored content never exceeds 1000 characters. -/
def contentInputChange (typed : JStr) : JStr :=
  typed.take 1000

/-- C3: with the store calls succeeding, running the like toggle twice from
any authenticated state restores both the displayed like count and the liked
flag, and each single successful toggle moves the count by exactly one and
flips the flag. -/
theorem likeToggle_spec :
    ∀ (u : User) (st : ItemState),
      ((handleLike (some u) (handleLike (some u) st StoreResult.success).1
          StoreResult.success).1.likeCount = st.likeCount ∧
       (handleLike (some u) (handleLike (some u) st StoreResult.success).1
          StoreResult.success).1.isLiked = st.isLiked) ∧
      ((handleLike (some u) st StoreResult.success).1.likeCount =
          st.likeCount + 1 ∨
       (handleLike (some u) st StoreResult.success).1.likeCount =
          st.likeCount - 1) ∧
      (handleLike (some u) st StoreResult.success).1.isLiked = !st.isLiked := by
  intro u st
  cases hst : st.isLiked <;> simp [handleLike, hst]

/-- C4 counterexample: a successful like round-trip issues a store request
but triggers no re-fetch of the comment list; it patches the displayed like
count in place instead, refuting the claim that every completed mutation
triggers a full re-fetch. -/
theorem mutationRefetch_counterexample :
    (handleLike (some ⟨5, Role.reader⟩) ⟨false, 2, false, [], false, none⟩
        StoreResult.success).2.storeCalled = true ∧
    (handleLike (some ⟨5, Role.reader⟩) ⟨false, 2, false, [], false, none⟩
        StoreResult.success).2.refetchTriggered = false ∧
    (handleLike (some ⟨5, Role.reader⟩) ⟨false, 2, false, [], false, none⟩
        StoreResult.success).1.likeCount = 3 := by
  decide

/-- C4 (amended): the presenter re-fetches the comment list exactly after a
successful create, edit, or delete; a failed mutation triggers no re-fetch,
and like or unlike never does — it adjusts the local like state in place. -/
theorem mutationRefetch_amended :
    ∀ (u : User) (st : ItemState) (fst : FormState) (r : StoreResult)
      (articleId : Nat) (parentId : Option Nat),
      (handleLike (some u) st r).2.refetchTriggered = false ∧
      ((jsTrim st.editContent).isEmpty = false →
        ((handleEdit st r).2.refetchTriggered = true ↔
          r = StoreResult.success)) ∧
      ((handleDelete true st r).2.refetchTriggered = true ↔
        r = StoreResult.success) ∧
      ((handleSubmit (some u) articleId parentId fst r).2.request.isSome =
          true →
        ((handleSubmit (some u) articleId parentId fst r).2.onSuccessFired =
            true ↔ r = StoreResult.success)) := by
  intro u st fst r articleId parentId
  refine ⟨?_, ?_, ?_, ?_⟩
  · cases r <;> cases hst : st.isLiked <;> simp [handleLike, hst]
  · intro he
    cases r <;> simp [handleEdit, he]
  · cases r <;> simp [handleDelete]
  · intro h
    by_cases he : (jsTrim fst.content).isEmpty
    · simp [handleSubmit, he] at h
    · cases r <;> simp [handleSubmit, he]

/-- C4 witness: a successful edit of a nonblank draft does re-fetch, and a
failed submission that did reach the store does not fire onSuccess. -/
theorem mutationRefetch_amended_witness :
    (jsTrim ((⟨true, 0, true, ['a'], true, none⟩ : ItemState)).editContent).isEmpty =
      false ∧
    ((handleEdit ⟨true, 0, true, ['a'], true, none⟩
        StoreResult.success).2.refetchTriggered = true ↔
      StoreResult.success = StoreResult.success) ∧
    ((handleSubmit (some ⟨5, Role.reader⟩) 1 none ⟨['a'], false, none⟩
        StoreResult.failure).2.request.isSome = true ∧
      ((handleSubmit (some ⟨5, Role.reader⟩) 1 none ⟨['a'], false, none⟩
          StoreResult.failure).2.onSuccessFired = true ↔
        StoreResult.failure = StoreResult.success)) :=
  ⟨by decide,
   (mutationRefetch_amended ⟨5, Role.reader⟩ ⟨true, 0, true, ['a'], true, none⟩
      ⟨['a'], false, none⟩ StoreResult.success 1 none).2.1 (by decide),
   by decide,
   (mutationRefetch_amended ⟨5, Role.reader⟩ ⟨true, 0, true, ['a'], true, none⟩
      ⟨['a'], false, none⟩ StoreResult.failure 1 none).2.2.2 (by decide)⟩

theorem dropWhile_length_le (p : Char → Bool) (l : JStr) :
    (l.dropWhile p).length ≤ l.length := by
  induction l with
  | nil => simp
  | cons a l ih =>
    simp only [List.dropWhile_cons]
    by_cases h : p a
    · simp only [h, if_true, List.length_cons]
      exact Nat.le_succ_of_le ih
    · simp [h]

theorem jsTrim_length_le (s : JStr) : (jsTrim s).length ≤ s.length := by
  unfold jsTrim
  rw [List.length_reverse]
  refine le_trans (dropWhile_length_le _ _) ?_
  rw [List.length_reverse]
  exact dropWhile_length_le _ _

/-- C7: a submission with blank content or no signed-in user issues no store
request, sets an inline error, and leaves the draft and the busy flag
untouched; otherwise the trimmed content — never longer than the draft, so
at most 1000 characters for any draft the bounded input can hold — is sent
with the article id and, when replying with a truthy parent id, that parent
id. -/
theorem submitValidation_spec :
    ∀ (user : Option User) (articleId : Nat) (parentId : Option Nat)
      (st : FormState) (store : StoreResult),
      (((jsTrim st.content).isEmpty = true ∨ user = none) →
        (handleSubmit user articleId parentId st store).2.request = none ∧
        (handleSubmit user articleId parentId st store).2.onSuccessFired =
          false ∧
        (handleSubmit user articleId parentId st store).1.errorMsg.isSome =
          true ∧
        (handleSubmit user articleId parentId st store).1.content =
          st.content ∧
        (handleSubmit user articleId parentId st store).1.loading =
          st.loading) ∧
      (∀ u, user = some u → (jsTrim st.content).isEmpty = false →
        ∃ req,
          (handleSubmit user articleId parentId st store).2.request =
            some req ∧
          req.article = articleId ∧
          req.content = jsTrim st.content ∧
          req.content.length ≤ st.content.length ∧
          (st.content.length ≤ 1000 → req.content.length ≤ 1000) ∧
          (∀ p, parentId = some p → p ≠ 0 → req.parent = some p) ∧
          (parentId = none → req.parent = none)) ∧
      (∀ typed, (contentInputChange typed).length ≤ 1000) := by
  intro user articleId parentId st store
  refine ⟨?_, ?_, ?_⟩
  · intro h
    rcases h with h | h
    · simp [handleSubmit, h]
    · subst h
      by_cases he : (jsTrim st.content).isEmpty <;> simp [handleSubmit, he]
  · intro u hu he
    subst hu
    refine ⟨⟨articleId, jsTrim st.content,
      if parentId.getD 0 = 0 then none else parentId⟩, ?_, rfl, rfl,
      jsTrim_length_le st.content,
      fun hlen => le_trans (jsTrim_length_le st.content) hlen, ?_, ?_⟩
    · cases store <;> simp [handleSubmit, he]
    · intro p hp hp0
      subst hp
      simp [Option.getD, hp0]
    · intro hp
      subst hp
      simp
  · intro typed
    simp [contentInputChange]

/-- C7 witness: with no signed-in user no request is issued, and a valid
submission sends the trimmed draft with article and parent ids. -/
theorem submitValidation_spec_witness :
    (handleSubmit none 1 none ⟨['a'], false, none⟩
        StoreResult.success).2.request = none ∧
    (∃ req,
      (handleSubmit (some ⟨2, Role.reader⟩) 1 (some 7) ⟨['a'], false, none⟩
          StoreResult.success).2.request = some req ∧
      req.article = 1 ∧
      req.content = jsTrim ['a'] ∧
      req.content.length ≤ (['a'] : JStr).length ∧
      ((['a'] : JStr).length ≤ 1000 → req.content.length ≤ 1000) ∧
      (∀ p, (some 7 : Option Nat) = some p → p ≠ 0 → req.parent = some p) ∧
      ((some 7 : Option Nat) = none → req.parent = none)) :=
  ⟨((submitValidation_spec none 1 none ⟨['a'], false, none⟩
      StoreResult.success).1 (Or.inr rfl)).1,
   (submitValidation_spec (some ⟨2, Role.reader⟩) 1 (some 7)
      ⟨['a'], false, none⟩ StoreResult.success).2.1 ⟨2, Role.reader⟩ rfl
      (by decide)⟩

/-- C8: whenever a handler actually reached the store, its busy flag is
false when it finishes, for success and for failure alike; on failure an
inline error token is set and the rest of the handler's local state is left
intact, with no exception escaping (the embedded handlers are total). -/
theorem busyFlag_spec :
    ∀ (u : User) (st : ItemState) (fst : FormState) (r : StoreResult)
      (articleId : Nat) (parentId : Option Nat),
      (handleLike (some u) st r).1.loading = false ∧
      (r = StoreResult.failure →
        (handleLike (some u) st r).1.errorMsg.isSome = true ∧
        (handleLike (some u) st r).1.isLiked = st.isLiked ∧
        (handleLike (some u) st r).1.likeCount = st.likeCount ∧
        (handleLike (some u) st r).1.isEditing = st.isEditing) ∧
      ((jsTrim st.editContent).isEmpty = false →
        (handleEdit st r).1.loading = false ∧
        (r = StoreResult.failure →
          (handleEdit st r).1.errorMsg.isSome = true ∧
          (handleEdit st r).1.isEditing = st.isEditing ∧
          (handleEdit st r).1.editContent = st.editContent)) ∧
      ((handleDelete true st r).1.loading = false ∧
        (r = StoreResult.failure →
          (handleDelete true st r).1.errorMsg.isSome = true)) ∧
      ((handleSubmit (some u) articleId parentId fst r).2.request.isSome =
          true →
        (handleSubmit (some u) articleId parentId fst r).1.loading = false ∧
        (r = StoreResult.failure →
          (handleSubmit (some u) articleId parentId fst
              r).1.errorMsg.isSome = true ∧
          (handleSubmit (some u) articleId parentId fst r).1.content =
            fst.content)) := by
  intro u st fst r articleId parentId
  refine ⟨?_, ?_, ?_, ?_, ?_⟩
  · cases r <;> cases hst : st.isLiked <;> simp [handleLike, hst]
  · intro hr
    subst hr
    simp [handleLike]
  · intro he
    cases r <;> simp [handleEdit, he]
  · cases r <;> simp [handleDelete]
  · intro h
    by_cases he : (jsTrim fst.content).isEmpty
    · simp [handleSubmit, he] at h
    · cases r <;> simp [handleSubmit, he]

/-- C8 witness: a failed like leaves the busy flag cleared, an error set,
and the liked state untouched; a failed edit of a nonblank draft likewise
finishes with the busy flag cleared. -/
theorem busyFlag_spec_witness :
    (handleLike (some ⟨3, Role.reader⟩) ⟨true, 5, false, ['a'], true, none⟩
        StoreResult.failure).1.loading = false ∧
    (handleLike (some ⟨3, Role.reader⟩) ⟨true, 5, false, ['a'], true, none⟩
        StoreResult.failure).1.errorMsg.isSome = true ∧
    (handleEdit ⟨true, 5, false, ['a'], true, none⟩
        StoreResult.failure).1.loading = false :=
  ⟨(busyFlag_spec ⟨3, Role.reader⟩ ⟨true, 5, false, ['a'], true, none⟩
      ⟨[], false, none⟩ StoreResult.failure 1 none).1,
   ((busyFlag_spec ⟨3, Role.reader⟩ ⟨true, 5, false, ['a'], true, none⟩
      ⟨[], false, none⟩ StoreResult.failure 1 none).2.1 rfl).1,
   ((busyFlag_spec ⟨3, Role.reader⟩ ⟨true, 5, false, ['a'], true, none⟩
      ⟨[], false, none⟩ StoreResult.failure 1 none).2.2.1 (by decide)).1⟩

/-- The fields of a moderation-view comment row that the action menu
reads. -/
structure ModComment where
  id : Nat
  is_approved : Bool
  is_spam : Bool
deriving DecidableEq

/-- The three entries of the moderation action menu. -/
inductive ModAction where
  | approve
  | markSpam
  | remove
deriving DecidableEq

/-- Embedding of the action menu of the comments management page: the
approve entry is rendered when the selected comment is not approved, the
mark-spam entry when it is not spam, and the delete entry always. -/
def moderationMenu (selected : ModComment) : List ModAction :=
  (if !selected.is_approved then [ModAction.approve] else []) ++
  (if !selected.is_spam then [ModAction.markSpam] else []) ++
  [ModAction.remove]

/-- Modelled from the spec: the store effect of each moderation action on
the selected comment (the Django backend is not under the frontend
sources) — approve sets the approval flag, mark-spam sets the spam flag,
delete removes the comment. -/
def applyModeration : ModAction → ModComment → Option ModComment
  | ModAction.approve, c => some { c with is_approved := true }
  | ModAction.markSpam, c => some { c with is_spam := true }
  | ModAction.remove, _ => none

/-- C5: the moderation view offers approve exactly for unapproved comments
and mark-spam exactly for non-spam comments, and no exposed action ever
clears the spam flag once set — there is no unspam transition. -/
theorem moderation_spec :
    ∀ (c : ModComment),
      (ModAction.approve ∈ moderationMenu c ↔ c.is_approved = false) ∧
      (ModAction.markSpam ∈ moderationMenu c ↔ c.is_spam = false) ∧
      (∀ (a : ModAction) (c' : ModComment),
        applyModeration a c = some c' → c.is_spam = true →
          c'.is_spam = true) := by
  intro c
  refine ⟨?_, ?_, ?_⟩
  · cases ha : c.is_approved <;> cases hs : c.is_spam <;>
      simp [moderationMenu, ha, hs]
  · cases ha : c.is_approved <;> cases hs : c.is_spam <;>
      simp [moderationMenu, ha, hs]
  · intro a c' h hspam
    cases a with
    | approve =>
      simp [applyModeration] at h
      rw [← h]
      exact hspam
    | markSpam =>
      simp [applyModeration] at h
      rw [← h]
    | remove => simp [applyModeration] at h

/-- C5 witness: approving a spam comment leaves its spam flag set. -/
theorem moderation_spec_witness :
    applyModeration ModAction.approve ⟨1, false, true⟩ = some ⟨1, true, true⟩ ∧
    (⟨1, true, true⟩ : ModComment).is_spam = true :=
  ⟨rfl, (moderation_spec ⟨1, false, true⟩).2.2 ModAction.approve ⟨1, true, true⟩
    rfl rfl⟩

/-- Data-model invariants of a flat comment list, from the specification:
ids are unique, a parentless comment has depth 0, and every parent reference
resolves within the set to a comment exactly one depth level up. -/
def ValidForest (cs : List FlatComment) : Prop :=
  (cs.map FlatComment.id).Nodup ∧
  (∀ c ∈ cs, c.parent = none → c.depth = 0) ∧
  (∀ c ∈ cs, ∀ p, c.parent = some p →
    ∃ q, q ∈ cs ∧ q.id = p ∧ c.depth = q.depth + 1)

instance (cs : List FlatComment) : Decidable (ValidForest cs) := by
  unfold ValidForest
  infer_instance

/-- Concatenation of the child groups of the comments of a list: the next
level of the materialized forest below the comments of the list. -/
def levelChildren (cs : List FlatComment) : List FlatComment → List FlatComment
  | [] => []
  | c :: rest => childrenOf cs c.id ++ levelChildren cs rest

theorem mem_childrenOf (cs : List FlatComment) (pid : Nat) (y : FlatComment) :
    y ∈ childrenOf cs pid ↔ y ∈ cs ∧ y.parent = some pid := by
  simp [childrenOf]

theorem mem_levelChildren (cs : List FlatComment) (L : List FlatComment)
    (y : FlatComment) :
    y ∈ levelChildren cs L ↔ ∃ c, c ∈ L ∧ y ∈ cs ∧ y.parent = some c.id := by
  induction L with
  | nil => simp [levelChildren]
  | cons c rest ih =>
    simp only [levelChildren, List.mem_append, ih, mem_childrenOf,
      List.mem_cons]
    constructor
    · rintro (⟨h1, h2⟩ | ⟨d, hd, h1, h2⟩)
      · exact ⟨c, Or.inl rfl, h1, h2⟩
      · exact ⟨d, Or.inr hd, h1, h2⟩
    · rintro ⟨d, (rfl | hd), h1, h2⟩
      · exact Or.inl ⟨h1, h2⟩
      · exact Or.inr ⟨d, hd, h1, h2⟩

theorem id_inj (cs : List FlatComment)
    (hnodup : (cs.map FlatComment.id).Nodup) {a b : FlatComment}
    (ha : a ∈ cs) (hb : b ∈ cs) (hab : a.id = b.id) : a = b :=
  List.inj_on_of_nodup_map hnodup ha hb hab

theorem getTotalCommentCount_append (l₁ l₂ : List CommentNode) :
    getTotalCommentCount (l₁ ++ l₂) =
      getTotalCommentCount l₁ + getTotalCommentCount l₂ := by
  induction l₁ with
  | nil => simp [getTotalCommentCount]
  | cons c rest ih =>
    cases c with
    | mk i d rs =>
      simp only [List.cons_append, getTotalCommentCount, ih]
      omega

theorem count_buildNode_level (cs : List FlatComment) (n : Nat)
    (L : List FlatComment) :
    getTotalCommentCount (L.map (buildNode cs (n + 1))) =
      L.length +
        getTotalCommentCount ((levelChildren cs L).map (buildNode cs n)) := by
  induction L with
  | nil => simp [levelChildren, getTotalCommentCount]
  | cons c rest ih =>
    have hb : buildNode cs (n + 1) c =
        CommentNode.mk c.id c.depth
          ((childrenOf cs c.id).map (buildNode cs n)) := rfl
    rw [List.map_cons, hb]
    simp only [getTotalCommentCount]
    rw [ih]
    simp only [levelChildren, List.map_append, getTotalCommentCount_append,
      List.length_cons]
    omega

theorem depth_le_max (cs : List FlatComment) :
    ∀ c ∈ cs, c.depth ≤ maxDepthOf cs := by
  induction cs with
  | nil => simp
  | cons a rest ih =>
    intro c hc
    rcases List.mem_cons.mp hc with rfl | hc
    · simp only [maxDepthOf, List.foldr_cons]
      exact Nat.le_max_left _ _
    · simp only [maxDepthOf, List.foldr_cons]
      exact le_trans (ih c hc) (Nat.le_max_right _ _)

theorem levelChildren_ids_nodup (cs : List FlatComment)
    (hnodup : (cs.map FlatComment.id).Nodup) :
    ∀ L : List FlatComment, (L.map FlatComment.id).Nodup →
      ((levelChildren cs L).map FlatComment.id).Nodup := by
  intro L
  induction L with
  | nil =>
    intro _
    simp [levelChildren]
  | cons c rest ih =>
    intro h
    rw [List.map_cons, List.nodup_cons] at h
    simp only [levelChildren, List.map_append]
    rw [List.nodup_append]
    refine ⟨?_, ih h.2, ?_⟩
    · exact List.Nodup.sublist
        (List.Sublist.map FlatComment.id (List.filter_sublist cs)) hnodup
    · intro x hx1 hx2
      rcases List.mem_map.mp hx1 with ⟨y, hy, rfl⟩
      rcases List.mem_map.mp hx2 with ⟨z, hz, hzy⟩
      rw [mem_childrenOf] at hy
      rw [mem_levelChildren] at hz
      rcases hz with ⟨d, hd, hzcs, hzpar⟩
      have hyz : z = y := id_inj cs hnodup hzcs hy.1 hzy
      subst hyz
      rw [hy.2] at hzpar
      have : c.id ∈ rest.map FlatComment.id :=
        List.mem_map.mpr ⟨d, hd, (Option.some.inj hzpar).symm⟩
      exact h.1 this

theorem levelChildren_mem_char (cs : List FlatComment) (V : ValidForest cs)
    (k : Nat) (L : List FlatComment)
    (hchar : ∀ x, x ∈ L ↔ x ∈ cs ∧ x.depth = k) :
    ∀ y, y ∈ levelChildren cs L ↔ y ∈ cs ∧ y.depth = k + 1 := by
  obtain ⟨hnodup, hroot, hres⟩ := V
  intro y
  rw [mem_levelChildren]
  constructor
  · rintro ⟨c, hcL, hycs, hypar⟩
    rcases (hchar c).1 hcL with ⟨hccs, hcd⟩
    rcases hres y hycs c.id hypar with ⟨q, hqcs, hqid, hyd⟩
    have hqc : q = c := id_inj cs hnodup hqcs hccs hqid
    subst hqc
    exact ⟨hycs, by omega⟩
  · rintro ⟨hycs, hyd⟩
    cases hp : y.parent with
    | none =>
      have := hroot y hycs hp
      omega
    | some p =>
      rcases hres y hycs p hp with ⟨q, hqcs, hqid, hyd2⟩
      have hqd : q.depth = k := by omega
      exact ⟨q, (hchar q).2 ⟨hqcs, hqd⟩, hycs, by rw [hqid]⟩


theorem length_of_char (cs : List FlatComment)
    (hnodup : (cs.map FlatComment.id).Nodup) (L : List FlatComment)
    (hL : (L.map FlatComment.id).Nodup) (k : Nat)
    (hchar : ∀ x, x ∈ L ↔ x ∈ cs ∧ x.depth = k) :
    L.length = (cs.filter fun c => c.depth = k).length := by
  have h1 : L.Nodup := List.Nodup.of_map _ hL
  have h2 : (cs.filter fun c => c.depth = k).Nodup :=
    (List.Nodup.of_map _ hnodup).filter _
  have hperm : L.Perm (cs.filter fun c => c.depth = k) := by
    rw [List.perm_ext_iff_of_nodup h1 h2]
    intro a
    rw [hchar a, List.mem_filter]
    simp
  exact hperm.length_eq

theorem filter_depth_split (cs : List FlatComment) (k : Nat) :
    (cs.filter fun c => k ≤ c.depth).length =
      (cs.filter fun c => c.depth = k).length +
        (cs.filter fun c => k + 1 ≤ c.depth).length := by
  induction cs with
  | nil => simp
  | cons c rest ih =>
    simp only [List.filter_cons]
    by_cases h1 : c.depth = k
    · have e1 : decide (k ≤ c.depth) = true := by simp [h1]
      have e2 : decide (c.depth = k) = true := by simp [h1]
      have e3 : ¬ decide (k + 1 ≤ c.depth) = true := by
        simp only [decide_eq_true_eq]
        omega
      rw [if_pos e1, if_pos e2, if_neg e3, List.length_cons, List.length_cons]
      omega
    · by_cases h2 : k ≤ c.depth
      · have e1 : decide (k ≤ c.depth) = true := by simp [h2]
        have e2 : ¬ decide (c.depth = k) = true := by
          simp only [decide_eq_true_eq]
          exact h1
        have e3 : decide (k + 1 ≤ c.depth) = true := by
          simp only [decide_eq_true_eq]
          omega
        rw [if_pos e1, if_neg e2, if_pos e3, List.length_cons,
          List.length_cons]
        omega
      · have e1 : ¬ decide (k ≤ c.depth) = true := by
          simp only [decide_eq_true_eq]
          exact h2
        have e2 : ¬ decide (c.depth = k) = true := by
          simp only [decide_eq_true_eq]
          exact h1
        have e3 : ¬ decide (k + 1 ≤ c.depth) = true := by
          simp only [decide_eq_true_eq]
          omega
        rw [if_neg e1, if_neg e2, if_neg e3]
        omega

theorem level_count (cs : List FlatComment) (V : ValidForest cs) :
    ∀ n k : Nat, k + n = maxDepthOf cs + 1 →
      ∀ L : List FlatComment, (L.map FlatComment.id).Nodup →
        (∀ x, x ∈ L ↔ x ∈ cs ∧ x.depth = k) →
        getTotalCommentCount (L.map (buildNode cs n)) =
          (cs.filter fun c => k ≤ c.depth).length := by
  intro n
  induction n with
  | zero =>
    intro k hk L hL hchar
    have hLnil : L = [] := by
      rw [List.eq_nil_iff_forall_not_mem]
      intro x hx
      rcases (hchar x).1 hx with ⟨hxcs, hxd⟩
      have := depth_le_max cs x hxcs
      omega
    subst hLnil
    have hfil : cs.filter (fun c => k ≤ c.depth) = [] := by
      rw [List.filter_eq_nil_iff]
      intro c hc
      have := depth_le_max cs c hc
      simp only [decide_eq_true_eq]
      omega
    rw [hfil]
    simp [getTotalCommentCount]
  | succ n ih =>
    intro k hk L hL hchar
    rw [count_buildNode_level]
    have hchar' := levelChildren_mem_char cs V k L hchar
    have hL' := levelChildren_ids_nodup cs V.1 L hL
    rw [ih (k + 1) (by omega) (levelChildren cs L) hL' hchar']
    rw [length_of_char cs V.1 L hL k hchar]
    exact (filter_depth_split cs k).symm

theorem isRoot_iff_depth_zero (cs : List FlatComment) (V : ValidForest cs) :
    ∀ c ∈ cs, (isRoot cs c = true ↔ c.depth = 0) := by
  obtain ⟨hnodup, hroot, hres⟩ := V
  intro c hc
  constructor
  · intro h
    cases hp : c.parent with
    | none => exact hroot c hc hp
    | some p =>
      rcases hres c hc p hp with ⟨q, hqcs, hqid, _⟩
      have hpres : idPresent cs p = true := by
        simp only [idPresent, List.any_eq_true, decide_eq_true_eq]
        exact ⟨q, hqcs, hqid⟩
      simp [isRoot, hp, hpres] at h
  · intro h0
    cases hp : c.parent with
    | none => simp [isRoot, hp]
    | some p =>
      rcases hres c hc p hp with ⟨q, _, _, hd⟩
      omega

/-- C1: getTotalCommentCount computes the recursive sum of 1 plus the count
of the replies over all roots, and on the forest built from a flat list
satisfying the data-model invariants — unique ids, roots at depth 0, every
parent id resolving within the set one depth level up — it equals the
number of input comments. -/
theorem totalCount_spec :
    (∀ forest : List CommentNode,
      getTotalCommentCount forest =
        (forest.map fun t => 1 + getTotalCommentCount t.replies).sum) ∧
    (∀ cs : List FlatComment, ValidForest cs →
      getTotalCommentCount (buildCommentTree cs) = cs.length) := by
  constructor
  · intro forest
    induction forest with
    | nil => simp [getTotalCommentCount]
    | cons c rest ih =>
      cases c with
      | mk i d rs =>
        simp only [getTotalCommentCount, List.map_cons, List.sum_cons, ih,
          CommentNode.replies]
  · intro cs V
    unfold buildCommentTree
    have hroots_nodup :
        ((cs.filter fun c => isRoot cs c).map FlatComment.id).Nodup :=
      List.Nodup.sublist
        (List.Sublist.map FlatComment.id (List.filter_sublist cs)) V.1
    have hchar :
        ∀ x, x ∈ cs.filter (fun c => isRoot cs c) ↔ x ∈ cs ∧ x.depth = 0 := by
      intro x
      rw [List.mem_filter]
      constructor
      · rintro ⟨hx, hr⟩
        exact ⟨hx, (isRoot_iff_depth_zero cs V x hx).1 hr⟩
      · rintro ⟨hx, hd⟩
        exact ⟨hx, (isRoot_iff_depth_zero cs V x hx).2 hd⟩
    rw [level_count cs V (maxDepthOf cs + 1) 0 (by omega) _ hroots_nodup hchar]
    have hall : cs.filter (fun c => 0 ≤ c.depth) = cs := by
      apply List.filter_eq_self.mpr
      intro a _
      simp
    rw [hall]

/-- C1 witness: a concrete three-comment list satisfying the invariants —
one root with two replies — counts to 3. -/
theorem totalCount_spec_witness :
    ValidForest [⟨1, none, 0⟩, ⟨2, some 1, 1⟩, ⟨3, some 1, 1⟩] ∧
    getTotalCommentCount
      (buildCommentTree [⟨1, none, 0⟩, ⟨2, some 1, 1⟩, ⟨3, some 1, 1⟩]) = 3 :=
  ⟨by decide,
   totalCount_spec.2 [⟨1, none, 0⟩, ⟨2, some 1, 1⟩, ⟨3, some 1, 1⟩] (by decide)⟩

end BlogComments
